import Mathlib

/-!
Verification of the resolution-and-caching core of github-artifact-proxy.

Strings are modelled as lists of characters (`GoStr`).  The lexical path
functions of Go's standard library (`path/filepath.Clean`, `Join`,
`strings.HasPrefix`) are modelled faithfully for Unix path semantics, since
the containment check of `extractFile` is built from them.  The stateful
parts of `handleTargetRequest` are modelled by explicit state passing: the
per-target run cache is an association list, the file system is the list of
node paths that exist, and the GitHub API is an oracle record whose calls
are recorded in a trace.
-/

namespace GAP

abbrev GoStr := List Char

def gs (s : String) : GoStr := s.toList

/-- Path components of a string: the maximal nonempty runs of
characters distinct from the separator. `cur` is the (reversed) run
being accumulated. Models the segment scanning of `path/filepath.Clean`. -/
def compsAux (cur : GoStr) : GoStr → List GoStr
  | [] => if cur = [] then [] else [cur.reverse]
  | c :: rest =>
    if c = '/' then
      (if cur = [] then compsAux [] rest else cur.reverse :: compsAux [] rest)
    else compsAux (c :: cur) rest

def comps (s : GoStr) : List GoStr := compsAux [] s

/-- The `..`-elimination loop of `filepath.Clean`, operating on the list of
path components. `stack` holds the components already emitted, most recent
first. A `..` pops the previous component; on a rooted path a `..` at the
root is dropped, on an unrooted path it is kept. `.` components vanish. -/
def cleanCompsAux (rooted : Bool) : List GoStr → List GoStr → List GoStr
  | stack, [] => stack.reverse
  | [], c :: rest =>
    if c = ['.'] then cleanCompsAux rooted [] rest
    else if c = ['.', '.'] then
      (if rooted then cleanCompsAux rooted [] rest else cleanCompsAux rooted [c] rest)
    else cleanCompsAux rooted [c] rest
  | t :: st, c :: rest =>
    if c = ['.'] then cleanCompsAux rooted (t :: st) rest
    else if c = ['.', '.'] then
      (if t = ['.', '.'] then cleanCompsAux rooted (c :: t :: st) rest
       else cleanCompsAux rooted st rest)
    else cleanCompsAux rooted (c :: t :: st) rest

def cleanComps (rooted : Bool) (cs : List GoStr) : List GoStr :=
  cleanCompsAux rooted [] cs

/-- Whether the string denotes a rooted (absolute) path. -/
def rootedOf : GoStr → Bool
  | [] => false
  | c :: _ => c = '/'

/-- Join a list of path components with the separator
(`strings.Join(elems, "/")`). -/
def joinSlash : List GoStr → GoStr
  | [] => []
  | [a] => a
  | a :: b :: rest => a ++ '/' :: joinSlash (b :: rest)

/-- Rendering of a cleaned path from its rootedness and components; an
empty rendering becomes `"."`. -/
def renderPath (rooted : Bool) (cs : List GoStr) : GoStr :=
  let out := (if rooted then ['/'] else []) ++ joinSlash cs
  if out = [] then ['.'] else out

/-- Go's `path/filepath.Clean` (Unix separator): shortest lexically
equivalent path. -/
def goClean (s : GoStr) : GoStr :=
  renderPath (rootedOf s) (cleanComps (rootedOf s) (comps s))

/-- Go's `path/filepath.Join`: skip leading empty elements, join the rest
with the separator and clean the result. (Identical to `path.Join` for
slash-separated paths.) -/
def goJoinList : List GoStr → GoStr
  | [] => []
  | e :: rest => if e = [] then goJoinList rest else goClean (joinSlash (e :: rest))

def goJoin (a b : GoStr) : GoStr := goJoinList [a, b]

/-- Canonical components of a path: what `Clean` leaves of it. -/
def pathComps (s : GoStr) : List GoStr := cleanComps (rootedOf s) (comps s)

/-- Canonical components of an archive entry name resolved against the
extraction root: the components of `destDir ++ "/" ++ name` after `..`
elimination.  This is where the path of the entry ends up on disk. -/
def joinedComps (destDir name : GoStr) : List GoStr :=
  cleanComps (rootedOf destDir) (comps destDir ++ comps name)

/-- The containment check of `extractFile` (zip.go):
`strings.HasPrefix(filepath.Join(destDir, f.Name), filepath.Clean(destDir)+"/")`. -/
def extractFileOk (destDir name : GoStr) : Bool :=
  (goClean destDir ++ ['/']).isPrefixOf (goJoin destDir name)

/-- `strconv.ParseInt(s, 10, 64)` as used for the run ID: optional sign,
nonempty decimal digit string, value within the signed 64-bit range;
anything else is an error (`none`). -/
def parseInt64 (s : GoStr) : Option Int :=
  match s with
  | [] => none
  | c :: rest =>
    let p : Bool × GoStr :=
      if c = '+' then (false, rest) else if c = '-' then (true, rest) else (false, c :: rest)
    if p.2 = [] then none
    else if p.2.all (fun d => '0' ≤ d && d ≤ '9') then
      let n : Nat := p.2.foldl (fun acc d => acc * 10 + (d.toNat - '0'.toNat)) 0
      if p.1 then (if n ≤ 2 ^ 63 then some (-(n : Int)) else none)
      else (if n ≤ 2 ^ 63 - 1 then some (n : Int) else none)
    else none

/-- Decimal rendering of an artifact ID (`fmt.Sprintf("%d", id)` /
`strconv.FormatInt(id, 10)`). -/
def i64Str (i : Int) : GoStr := (toString i).toList

/-! ## The zip file-system view (`archive/zip` `Reader.Open`)

`handleTargetRequest` probes the downloaded archive with
`zipReader.Open(filename)` before extracting it.  The Go standard library
first validates the name with `io/fs.ValidPath` (error `fs.ErrInvalid`,
which `os.IsNotExist` does not match), then looks the name up among the
sanitized entry names (`toValidName`) and the directories synthesized
above them (error `fs.ErrNotExist` when absent). -/

/-- Splitting on the separator, keeping empty elements, as
`io/fs.ValidPath` walks the name. -/
def splitSlash : GoStr → List GoStr
  | [] => [[]]
  | c :: rest =>
    if c = '/' then [] :: splitSlash rest
    else
      match splitSlash rest with
      | [] => [[c]]
      | s :: ss => (c :: s) :: ss

/-- `io/fs.ValidPath`: the name `"."`, or a nonempty chain of
slash-separated elements none of which is empty, `"."` or `".."`. -/
def fsValidPath (name : GoStr) : Bool :=
  name = ['.'] ||
    (splitSlash name).all (fun e => !(e = []) && !(e = ['.']) && !(e = ['.', '.']))

/-- `archive/zip.toValidName`: backslashes become slashes, the name is
cleaned, a leading slash and leading `../` runs are stripped. -/
def toValidName (n : GoStr) : GoStr :=
  let p := goClean (n.map (fun c => if c = '\\' then '/' else c))
  let p := match p with | '/' :: r => r | q => q
  stripDotDotSlash p
where
  stripDotDotSlash : GoStr → GoStr
    | '.' :: '.' :: '/' :: rest => stripDotDotSlash rest
    | s => s

/-- The sanitized names the zip file system exposes (empty ones are
dropped by `initFileList`). -/
def zipNames (entries : List GoStr) : List GoStr :=
  (entries.map toValidName).filter (fun n => !(n = []))

/-- Whether `Open` finds `name` in the archive: the root, an entry with
that sanitized name, or a directory synthesized above some entry. -/
def zipHas (entries : List GoStr) (name : GoStr) : Bool :=
  name = ['.'] ||
    (zipNames entries).any (fun v => v = name || (name ++ ['/']).isPrefixOf v)

inductive ZOpen where
  | ok
  | notExist
  | invalid
deriving DecidableEq, Repr

/-- Outcome of `zipReader.Open(name)`. -/
def zipOpen (entries : List GoStr) (name : GoStr) : ZOpen :=
  if fsValidPath name = false then .invalid
  else if zipHas entries name then .ok else .notExist

/-! ## Upstream oracle, run cache and the resolution phase
(`handleTargetRequest`, server.go lines 96-208) -/

/-- An upstream GitHub API call made by the handler, for the call trace. -/
inductive UCall where
  | listRuns
  | getRun (id : Int)
  | listArtifacts (id : Int)
  | downloadArtifact (id : Int)
deriving DecidableEq, Repr

/-- Result of an upstream call: `ok`, or an error carrying the HTTP status
code of the response when one was received (`ghRes != nil`). -/
inductive UResult (α : Type) where
  | ok (val : α)
  | err (status : Option Int)
deriving DecidableEq, Repr

/-- The fields of `github.WorkflowRun` the handler reads (`*run.ID`). -/
structure RunInfo where
  id : Int
deriving DecidableEq, Repr

/-- The fields of `github.Artifact` the handler reads. -/
structure ArtifactInfo where
  name : Option GoStr
  id : Option Int
deriving DecidableEq, Repr

/-- The upstream GitHub API as an oracle.  `downloadArtifact` collapses
`DownloadArtifact` + the archive HTTP download + `zip.OpenReader`: on
success it yields the entry names of the archive, `none` is any failure in
that chain. -/
structure Upstream where
  listRuns : UResult (List RunInfo)
  getRun : Int → UResult RunInfo
  listArtifacts : Int → UResult (List ArtifactInfo)
  downloadArtifact : Int → Option (List GoStr)

/-- A run-cache entry (`Run` in config.go): resolved run ID, the ID of the
resolved artifact (the handler dereferences only `Artifact.ID` afterwards,
which it has checked to be non-nil), and the fetch timestamp. -/
structure Run where
  id : Int
  artifactId : Int
  fetchTime : Int
deriving DecidableEq, Repr

/-- `target.runCache`: a map from the literal run-reference string to the
cached entry, modelled as an association list where the most recent
binding shadows older ones. -/
abbrev RunCache := List (GoStr × Run)

def cacheGet (c : RunCache) (k : GoStr) : Option Run :=
  (c.find? (fun p => p.1 = k)).map (fun p => p.2)

def cacheSet (c : RunCache) (k : GoStr) (r : Run) : RunCache := (k, r) :: c

/-- The typed failures of the resolution phase, named by the HTTP status
they are surfaced with. -/
inductive RFail where
  | notFound
  | badRequest
  | internalError
deriving DecidableEq, Repr

structure ResolveOut where
  result : Except RFail Run
  cache : RunCache
  calls : List UCall
deriving Repr

def latestStr : GoStr := gs "latest"

/-- The artifact-name match of server.go lines 178-184:
`af.Name != nil && *af.Name == artifactName`, first match wins. -/
def findArtifact (arts : List ArtifactInfo) (artifactName : GoStr) : Option ArtifactInfo :=
  arts.find? (fun a => a.name = some artifactName)

/-- Determining the concrete workflow run on a cache miss (server.go
lines 100-164): `latest` lists the runs of the workflow and takes the
first element; anything else must parse as an int64 run ID and is fetched
by ID.  A received 404 maps to not-found, any other upstream error to an
internal error. -/
def resolveFreshRun (up : Upstream) (runName : GoStr) : Except RFail RunInfo × List UCall :=
  if runName = latestStr then
    match up.listRuns with
    | .err s => ((if s = some 404 then .error .notFound else .error .internalError), [.listRuns])
    | .ok [] => (.error .notFound, [.listRuns])
    | .ok (r :: _) => (.ok r, [.listRuns])
  else
    match parseInt64 runName with
    | none => (.error .badRequest, [])
    | some rid =>
      match up.getRun rid with
      | .err s => ((if s = some 404 then .error .notFound else .error .internalError), [.getRun rid])
      | .ok r => (.ok r, [.getRun rid])

/-- The cache-miss path of the resolution phase (server.go lines 100-202):
determine the run, list its artifacts, find the artifact matching the
requested name with a non-nil ID, and only then write the new cache entry
with fetch time `now`. -/
def resolveMiss (up : Upstream) (now : Int) (cache : RunCache)
    (runName artifactName : GoStr) : ResolveOut :=
  match resolveFreshRun up runName with
  | (.error f, cs) => ⟨.error f, cache, cs⟩
  | (.ok run, cs) =>
    match up.listArtifacts run.id with
    | .err _ => ⟨.error .internalError, cache, cs ++ [.listArtifacts run.id]⟩
    | .ok arts =>
      match findArtifact arts artifactName with
      | none => ⟨.error .notFound, cache, cs ++ [.listArtifacts run.id]⟩
      | some a =>
        match a.id with
        | none => ⟨.error .notFound, cache, cs ++ [.listArtifacts run.id]⟩
        | some aid =>
          let newRun : Run := ⟨run.id, aid, now⟩
          ⟨.ok newRun, cacheSet cache runName newRun, cs ++ [.listArtifacts run.id]⟩

/-- The resolution phase (server.go lines 98-208): serve the cached entry
when it exists and is at most `ttl` old (`!ok || time.Since(FetchTime) >
TTL` guards the refresh branch), otherwise resolve afresh. -/
def resolveRun (up : Upstream) (ttl now : Int) (cache : RunCache)
    (runName artifactName : GoStr) : ResolveOut :=
  match cacheGet cache runName with
  | some r =>
    if now - r.fetchTime ≤ ttl then ⟨.ok r, cache, []⟩
    else resolveMiss up now cache runName artifactName
  | none => resolveMiss up now cache runName artifactName

/-! ## The materialization phase
(`handleTargetRequest` lines 210-295, `Unzip`/`extractFile` in zip.go) -/

/-- HTTP-level outcome of the handler. -/
inductive HOut where
  | notFound
  | badRequest
  | internalError
  | redirect (path : GoStr)
deriving DecidableEq, Repr

/-- A node of the file-system model lies under directory `d` when it is
the directory itself or a path below it (what `os.RemoveAll(d)` deletes). -/
def underDirB (d p : GoStr) : Bool :=
  p = goClean d || (goClean d ++ ['/']).isPrefixOf p

/-- The file system as the list of existing node paths, canonicalized. -/
def mkdirAllFS (fs : List GoStr) (d : GoStr) : List GoStr := goClean d :: fs

def deleteDirFS (fs : List GoStr) (d : GoStr) : List GoStr :=
  fs.filter (fun p => !underDirB d p)

/-- `getArtifactCacheDir`: `filepath.Join(s.DownloadDir, "artifacts",
strconv.FormatInt(artifactID, 10))`. -/
def getArtifactCacheDir (downloadDir : GoStr) (artifactId : Int) : GoStr :=
  goJoinList [downloadDir, gs "artifacts", i64Str artifactId]

/-- `buildURLPath`: `path.Join(s.BasePath, part)`. -/
def buildURLPath (basePath part : GoStr) : GoStr := goJoin basePath part

/-- The redirect target (`dlPath`): `buildURLPath(fmt.Sprintf("/artifacts/%d/%s",
id, filename))`. -/
def dlPathOf (basePath : GoStr) (artifactId : Int) (filename : GoStr) : GoStr :=
  buildURLPath basePath (gs "/artifacts/" ++ i64Str artifactId ++ '/' :: filename)

/-- `Unzip` (zip.go): extract the entries in order; each entry is checked
for containment before being written, and the first offending entry aborts
the extraction with the offending path, leaving the previously written
nodes in place. -/
def unzipFS (destDir : GoStr) : List GoStr → List GoStr → Except (GoStr × List GoStr) (List GoStr)
  | fs, [] => .ok fs
  | fs, e :: rest =>
    if extractFileOk destDir e then unzipFS destDir (goJoin destDir e :: fs) rest
    else .error (goJoin destDir e, fs)

structure MatOut where
  out : HOut
  fs : List GoStr
  calls : List UCall
deriving DecidableEq, Repr

/-- The materialization phase (server.go lines 210-295): redirect at once
when the artifact cache directory exists; otherwise download the archive,
run the pre-flight existence check for a nonempty requested filename
(`os.IsNotExist` maps to 404, any other open error to 500), create the
directory, extract, and on extraction failure delete the directory. -/
def materialize (up : Upstream) (basePath downloadDir : GoStr) (fs : List GoStr)
    (artifactId : Int) (filename : GoStr) : MatOut :=
  let dlDir := getArtifactCacheDir downloadDir artifactId
  let dlPath := dlPathOf basePath artifactId filename
  if goClean dlDir ∈ fs then ⟨.redirect dlPath, fs, []⟩
  else
    match up.downloadArtifact artifactId with
    | none => ⟨.internalError, fs, [.downloadArtifact artifactId]⟩
    | some entries =>
      let pre : Option HOut :=
        if filename = [] then none
        else
          match zipOpen entries filename with
          | .ok => none
          | .notExist => some .notFound
          | .invalid => some .internalError
      match pre with
      | some o => ⟨o, fs, [.downloadArtifact artifactId]⟩
      | none =>
        match unzipFS dlDir (mkdirAllFS fs dlDir) entries with
        | .error (_, fsp) =>
          ⟨.internalError, deleteDirFS fsp dlDir, [.downloadArtifact artifactId]⟩
        | .ok fs2 => ⟨.redirect dlPath, fs2, [.downloadArtifact artifactId]⟩

/-! ## The whole handler -/

structure HResult where
  out : HOut
  cache : RunCache
  fs : List GoStr
  calls : List UCall
deriving DecidableEq, Repr

def rfailOut : RFail → HOut
  | .notFound => .notFound
  | .badRequest => .badRequest
  | .internalError => .internalError

/-- `handleTargetRequest` after target lookup: `lockOk` is whether
`target.Lock(lockCtx)` succeeded before the 30s deadline; on failure the
handler answers 404 at once.  Otherwise the resolution phase runs and, on
success, the materialization phase. -/
def handleTargetRequest (up : Upstream) (ttl now : Int) (basePath downloadDir : GoStr)
    (lockOk : Bool) (cache : RunCache) (fs : List GoStr)
    (runName artifactName filename : GoStr) : HResult :=
  if lockOk = false then ⟨.notFound, cache, fs, []⟩
  else
    let r := resolveRun up ttl now cache runName artifactName
    match r.result with
    | .error f => ⟨rfailOut f, r.cache, fs, r.calls⟩
    | .ok run =>
      let m := materialize up basePath downloadDir fs run.artifactId filename
      ⟨m.out, r.cache, m.fs, r.calls ++ m.calls⟩

/-! ## Concrete fixtures used by the witnesses -/

def upFix : Upstream :=
  ⟨.ok [⟨42⟩], fun i => .ok ⟨i⟩,
   fun _ => .ok [⟨some (gs "coverage"), some 777⟩],
   fun _ => some [gs "coverage.svg"]⟩

def rFix : Run := ⟨42, 777, 0⟩

def cacheFix : RunCache := [(latestStr, rFix)]

def upEvil : Upstream :=
  ⟨upFix.listRuns, upFix.getRun, upFix.listArtifacts,
   fun _ => some [gs "../../etc/passwd"]⟩

/-- A path segment: nonempty and free of the separator. -/
def isSeg (s : GoStr) : Prop := s ≠ [] ∧ '/' ∉ s

/-! ## Sanity checks of the model against Go behaviour -/

example : goClean (gs "a/b/../../../c") = gs "../c" := by decide
example : goClean (gs "/a/../../b") = gs "/b" := by decide
example : goClean (gs "./") = gs "." := by decide
example : goClean (gs "") = gs "." := by decide
example : goClean (gs "/..//../a/") = gs "/a" := by decide
example : goJoin (gs "/data/artifacts/7") (gs "../evil") = gs "/data/artifacts/evil" := by decide
example : extractFileOk (gs "/data/artifacts/7") (gs "ok/file.txt") = true := by decide
example : extractFileOk (gs "/data/artifacts/7") (gs "../../etc/passwd") = false := by decide
example : extractFileOk (gs "/data/artifacts/7") (gs ".") = false := by decide
example : extractFileOk (gs "/data/artifacts/77") (gs "x") = true := by decide
example : parseInt64 (gs "42") = some 42 := by decide
example : parseInt64 (gs "-042") = some (-42) := by decide
example : parseInt64 (gs "latest") = none := by decide
example : parseInt64 (gs "") = none := by decide
example : parseInt64 (gs "4x2") = none := by decide
example : parseInt64 (gs "9223372036854775808") = none := by decide
example : parseInt64 (gs "-9223372036854775808") = some (-9223372036854775808) := by decide
example : i64Str 777 = gs "777" := by decide
example : fsValidPath (gs "a/b.svg") = true := by decide
example : fsValidPath (gs ".") = true := by decide
example : fsValidPath (gs "") = false := by decide
example : fsValidPath (gs "..") = false := by decide
example : fsValidPath (gs "a//b") = false := by decide
example : fsValidPath (gs "a/") = false := by decide
example : fsValidPath (gs "/a") = false := by decide
example : zipOpen [gs "coverage.svg"] (gs "coverage.svg") = .ok := by decide
example : zipOpen [gs "dir/coverage.svg"] (gs "dir") = .ok := by decide
example : zipOpen [gs "coverage.svg"] (gs "other.svg") = .notExist := by decide
example : zipOpen [gs "coverage.svg"] (gs "..") = .invalid := by decide

/-! ## Lemmas about the resolution phase -/

theorem resolveRun_hit (up : Upstream) (ttl now : Int) (cache : RunCache)
    (runName artifactName : GoStr) (r : Run)
    (hget : cacheGet cache runName = some r) (hfresh : now - r.fetchTime ≤ ttl) :
    resolveRun up ttl now cache runName artifactName = ⟨.ok r, cache, []⟩ := by
  unfold resolveRun
  rw [hget]
  simp [hfresh]

theorem resolveRun_miss (up : Upstream) (ttl now : Int) (cache : RunCache)
    (runName artifactName : GoStr)
    (h : cacheGet cache runName = none ∨
      ∃ r, cacheGet cache runName = some r ∧ now - r.fetchTime > ttl) :
    resolveRun up ttl now cache runName artifactName
      = resolveMiss up now cache runName artifactName := by
  unfold resolveRun
  rcases h with h | ⟨r, hr, hexp⟩
  · rw [h]
  · rw [hr]
    simp [not_le.mpr hexp]

/-- Inversion of a successful cache-miss resolution: the new entry has
fetch time `now`, it overwrites the cache under the request's key, it was
built from an artifact found by name with a non-nil ID, and upstream was
called. -/
theorem resolveMiss_ok_inv (up : Upstream) (now : Int) (cache : RunCache)
    (runName artifactName : GoStr) (run : Run)
    (h : (resolveMiss up now cache runName artifactName).result = .ok run) :
    run.fetchTime = now ∧
    (resolveMiss up now cache runName artifactName).cache = cacheSet cache runName run ∧
    (∃ arts a, up.listArtifacts run.id = .ok arts ∧
       findArtifact arts artifactName = some a ∧ a.id = some run.artifactId) ∧
    (resolveMiss up now cache runName artifactName).calls ≠ [] := by
  rcases hf : resolveFreshRun up runName with ⟨res, cs⟩
  rcases res with f | rinfo
  · simp [resolveMiss, hf] at h
  · rcases ha : up.listArtifacts rinfo.id with arts | s
    · rcases hfa : findArtifact arts artifactName with _ | a
      · simp [resolveMiss, hf, ha, hfa] at h
      · rcases hid : a.id with _ | aid
        · simp [resolveMiss, hf, ha, hfa, hid] at h
        · simp only [resolveMiss, hf, ha, hfa, hid] at h ⊢
          injection h with h2
          subst h2
          exact ⟨rfl, rfl, ⟨arts, a, ha, hfa, hid⟩, by simp⟩
    · simp [resolveMiss, hf, ha] at h

/-- A failed cache-miss resolution leaves the run cache unchanged. -/
theorem resolveMiss_error_inv (up : Upstream) (now : Int) (cache : RunCache)
    (runName artifactName : GoStr) (f : RFail)
    (h : (resolveMiss up now cache runName artifactName).result = .error f) :
    (resolveMiss up now cache runName artifactName).cache = cache := by
  rcases hf : resolveFreshRun up runName with ⟨res, cs⟩
  rcases res with f' | rinfo
  · simp [resolveMiss, hf]
  · rcases ha : up.listArtifacts rinfo.id with arts | s
    · rcases hfa : findArtifact arts artifactName with _ | a
      · simp [resolveMiss, hf, ha, hfa]
      · rcases hid : a.id with _ | aid
        · simp [resolveMiss, hf, ha, hfa, hid]
        · simp [resolveMiss, hf, ha, hfa, hid] at h
    · simp [resolveMiss, hf, ha]

/-! ## Claims about the resolution phase -/

/-- C2: a run-cache entry fetched at `t0` answers, with no upstream call,
any request with the same key at time `now` with `now - t0 ≤ TTL`; when
the entry is absent or `now - t0 > TTL`, resolution proceeds afresh and on
success writes an entry with fetch time `now` over the old binding. -/
theorem C2_run_cache_ttl (up : Upstream) (ttl now : Int) (cache : RunCache)
    (runName artifactName : GoStr) :
    (∀ r, cacheGet cache runName = some r → now - r.fetchTime ≤ ttl →
      resolveRun up ttl now cache runName artifactName = ⟨.ok r, cache, []⟩) ∧
    ((cacheGet cache runName = none ∨
        ∃ r, cacheGet cache runName = some r ∧ now - r.fetchTime > ttl) →
      ∀ run, (resolveRun up ttl now cache runName artifactName).result = .ok run →
        run.fetchTime = now ∧
        (resolveRun up ttl now cache runName artifactName).cache
          = cacheSet cache runName run ∧
        (resolveRun up ttl now cache runName artifactName).calls ≠ []) := by
  constructor
  · intro r hget hfresh
    exact resolveRun_hit up ttl now cache runName artifactName r hget hfresh
  · intro hmiss run hok
    rw [resolveRun_miss up ttl now cache runName artifactName hmiss] at hok ⊢
    obtain ⟨h1, h2, _, h4⟩ := resolveMiss_ok_inv up now cache runName artifactName run hok
    exact ⟨h1, h2, h4⟩

theorem C2_run_cache_ttl_witness :
    (cacheGet cacheFix latestStr = some rFix ∧ (3 : Int) - rFix.fetchTime ≤ 5 ∧
      resolveRun upFix 5 3 cacheFix latestStr (gs "coverage") = ⟨.ok rFix, cacheFix, []⟩) ∧
    ((10 : Int) - rFix.fetchTime > 5 ∧
      Run.fetchTime ⟨42, 777, 10⟩ = 10 ∧
      (resolveRun upFix 5 10 cacheFix latestStr (gs "coverage")).cache
        = cacheSet cacheFix latestStr ⟨42, 777, 10⟩ ∧
      (resolveRun upFix 5 10 cacheFix latestStr (gs "coverage")).calls ≠ []) := by
  constructor
  · exact ⟨rfl, by decide,
      (C2_run_cache_ttl upFix 5 3 cacheFix latestStr (gs "coverage")).1 rFix rfl (by decide)⟩
  · have h := (C2_run_cache_ttl upFix 5 10 cacheFix latestStr (gs "coverage")).2
      (Or.inr ⟨rFix, rfl, by decide⟩) ⟨42, 777, 10⟩ rfl
    exact ⟨by decide, h.1, h.2.1, h.2.2⟩

/-- C5: when the upstream run listing (for `latest`) or run lookup (by ID)
fails, a received 404 status yields the not-found outcome and any other
failure yields the internal-error outcome, a distinct value. -/
theorem C5_upstream_failure_mapping (up : Upstream) (ttl now : Int) (cache : RunCache)
    (runName artifactName : GoStr)
    (hmiss : cacheGet cache runName = none) :
    (∀ s, runName = latestStr → up.listRuns = .err s →
      resolveRun up ttl now cache runName artifactName
        = ⟨.error (if s = some 404 then .notFound else .internalError), cache, [.listRuns]⟩) ∧
    (∀ rid s, parseInt64 runName = some rid → runName ≠ latestStr → up.getRun rid = .err s →
      resolveRun up ttl now cache runName artifactName
        = ⟨.error (if s = some 404 then .notFound else .internalError), cache, [.getRun rid]⟩) ∧
    RFail.notFound ≠ RFail.internalError := by
  refine ⟨?_, ?_, by decide⟩
  · intro s hlat herr
    rw [resolveRun_miss up ttl now cache runName artifactName (Or.inl hmiss)]
    subst hlat
    have hf : resolveFreshRun up latestStr
        = ((if s = some 404 then .error .notFound else .error .internalError), [.listRuns]) := by
      unfold resolveFreshRun
      rw [if_pos rfl, herr]
    unfold resolveMiss
    rw [hf]
    by_cases h404 : s = some 404 <;> simp [h404]
  · intro rid s hparse hlat herr
    rw [resolveRun_miss up ttl now cache runName artifactName (Or.inl hmiss)]
    have hf : resolveFreshRun up runName
        = ((if s = some 404 then .error .notFound else .error .internalError), [.getRun rid]) := by
      unfold resolveFreshRun
      rw [if_neg hlat, hparse]
      simp [herr]
    unfold resolveMiss
    rw [hf]
    by_cases h404 : s = some 404 <;> simp [h404]

theorem C5_upstream_failure_mapping_witness :
    (cacheGet [] (gs "latest") = none ∧
      resolveRun ⟨.err (some 404), upFix.getRun, upFix.listArtifacts, upFix.downloadArtifact⟩
          5 3 [] (gs "latest") (gs "coverage")
        = ⟨.error .notFound, [], [.listRuns]⟩) ∧
    (cacheGet [] (gs "42") = none ∧
      resolveRun ⟨upFix.listRuns, fun _ => .err none, upFix.listArtifacts, upFix.downloadArtifact⟩
          5 3 [] (gs "42") (gs "coverage")
        = ⟨.error .internalError, [], [.getRun 42]⟩) := by
  constructor
  · refine ⟨rfl, ?_⟩
    have h := (C5_upstream_failure_mapping
      ⟨.err (some 404), upFix.getRun, upFix.listArtifacts, upFix.downloadArtifact⟩
      5 3 [] (gs "latest") (gs "coverage") rfl).1 (some 404) rfl rfl
    simpa using h
  · refine ⟨rfl, ?_⟩
    have h := (C5_upstream_failure_mapping
      ⟨upFix.listRuns, fun _ => .err none, upFix.listArtifacts, upFix.downloadArtifact⟩
      5 3 [] (gs "42") (gs "coverage") rfl).2.1 42 none (by decide) (by decide) rfl
    simpa using h

/-- C6: resolving `latest` takes exactly the first element of the run list
returned upstream, whatever the rest of the list is; an empty list is a
not-found outcome. -/
theorem C6_latest_is_head (up : Upstream) (ttl now : Int) (cache : RunCache)
    (artifactName : GoStr)
    (hmiss : cacheGet cache latestStr = none) :
    (∀ r rest, up.listRuns = .ok (r :: rest) →
      (resolveRun up ttl now cache latestStr artifactName).calls
        = [.listRuns, .listArtifacts r.id] ∧
      (∀ run, (resolveRun up ttl now cache latestStr artifactName).result = .ok run →
        run.id = r.id)) ∧
    (up.listRuns = .ok [] →
      resolveRun up ttl now cache latestStr artifactName
        = ⟨.error .notFound, cache, [.listRuns]⟩) := by
  constructor
  · intro r rest hruns
    rw [resolveRun_miss up ttl now cache latestStr artifactName (Or.inl hmiss)]
    have hf : resolveFreshRun up latestStr = (.ok r, [.listRuns]) := by
      unfold resolveFreshRun
      rw [if_pos rfl, hruns]
    constructor
    · unfold resolveMiss
      rw [hf]
      rcases ha : up.listArtifacts r.id with arts | s
      · rcases hfa : findArtifact arts artifactName with _ | a
        · simp [ha, hfa]
        · rcases hid : a.id with _ | aid <;> simp [ha, hfa, hid]
      · simp [ha]
    · intro run hok
      unfold resolveMiss at hok
      rw [hf] at hok
      rcases ha : up.listArtifacts r.id with arts | s
      · rcases hfa : findArtifact arts artifactName with _ | a
        · simp [ha, hfa] at hok
        · rcases hid : a.id with _ | aid
          · simp [ha, hfa, hid] at hok
          · simp [ha, hfa, hid] at hok
            rw [← hok]
      · simp [ha] at hok
  · intro hruns
    rw [resolveRun_miss up ttl now cache latestStr artifactName (Or.inl hmiss)]
    unfold resolveMiss resolveFreshRun
    rw [if_pos rfl, hruns]

theorem C6_latest_is_head_witness :
    (cacheGet [] latestStr = none ∧ upFix.listRuns = .ok [⟨42⟩] ∧
      (resolveRun upFix 5 3 [] latestStr (gs "coverage")).calls
        = [.listRuns, .listArtifacts 42] ∧
      (∀ run, (resolveRun upFix 5 3 [] latestStr (gs "coverage")).result = .ok run →
        run.id = 42)) ∧
    (resolveRun ⟨.ok [], upFix.getRun, upFix.listArtifacts, upFix.downloadArtifact⟩
        5 3 [] latestStr (gs "coverage")
      = ⟨.error .notFound, [], [.listRuns]⟩) := by
  constructor
  · have h := (C6_latest_is_head upFix 5 3 [] (gs "coverage") rfl).1 ⟨42⟩ [] rfl
    exact ⟨rfl, rfl, h.1, h.2⟩
  · exact (C6_latest_is_head ⟨.ok [], upFix.getRun, upFix.listArtifacts, upFix.downloadArtifact⟩
      5 3 [] (gs "coverage") rfl).2 rfl

/-- C7: a run reference other than `latest` that does not parse as an
int64 is answered with the malformed-request outcome and upstream is
never called; a parseable one is fetched by exactly that ID. -/
theorem C7_run_reference_parse (up : Upstream) (ttl now : Int) (cache : RunCache)
    (runName artifactName : GoStr)
    (hmiss : cacheGet cache runName = none) (hlat : runName ≠ latestStr) :
    (parseInt64 runName = none →
      resolveRun up ttl now cache runName artifactName
        = ⟨.error .badRequest, cache, []⟩) ∧
    (∀ rid, parseInt64 runName = some rid →
      ∃ rest, (resolveRun up ttl now cache runName artifactName).calls
        = .getRun rid :: rest) := by
  constructor
  · intro hparse
    rw [resolveRun_miss up ttl now cache runName artifactName (Or.inl hmiss)]
    unfold resolveMiss resolveFreshRun
    rw [if_neg hlat, hparse]
  · intro rid hparse
    rw [resolveRun_miss up ttl now cache runName artifactName (Or.inl hmiss)]
    rcases hg : up.getRun rid with r | s
    · have hf : resolveFreshRun up runName = (.ok r, [.getRun rid]) := by
        unfold resolveFreshRun
        rw [if_neg hlat, hparse]
        simp [hg]
      unfold resolveMiss
      rw [hf]
      rcases ha : up.listArtifacts r.id with arts | s2
      · rcases hfa : findArtifact arts artifactName with _ | a
        · exact ⟨[.listArtifacts r.id], by simp [ha, hfa]⟩
        · rcases hid : a.id with _ | aid
          · exact ⟨[.listArtifacts r.id], by simp [ha, hfa, hid]⟩
          · exact ⟨[.listArtifacts r.id], by simp [ha, hfa, hid]⟩
      · exact ⟨[.listArtifacts r.id], by simp [ha]⟩
    · have hf : resolveFreshRun up runName
          = ((if s = some 404 then .error .notFound else .error .internalError), [.getRun rid]) := by
        unfold resolveFreshRun
        rw [if_neg hlat, hparse]
        simp [hg]
      unfold resolveMiss
      rw [hf]
      by_cases h404 : s = some 404
      · exact ⟨[], by simp [h404]⟩
      · exact ⟨[], by simp [h404]⟩

theorem C7_run_reference_parse_witness :
    (cacheGet [] (gs "abc") = none ∧ gs "abc" ≠ latestStr ∧ parseInt64 (gs "abc") = none ∧
      resolveRun upFix 5 3 [] (gs "abc") (gs "coverage")
        = ⟨.error .badRequest, [], []⟩) ∧
    (parseInt64 (gs "42") = some 42 ∧
      ∃ rest, (resolveRun upFix 5 3 [] (gs "42") (gs "coverage")).calls
        = .getRun 42 :: rest) := by
  constructor
  · exact ⟨rfl, by decide, by decide,
      (C7_run_reference_parse upFix 5 3 [] (gs "abc") (gs "coverage") rfl (by decide)).1
        (by decide)⟩
  · exact ⟨by decide,
      (C7_run_reference_parse upFix 5 3 [] (gs "42") (gs "coverage") rfl (by decide)).2
        42 (by decide)⟩

/-- C8: when the per-target gate is not acquired before the deadline, the
handler answers not-found (not a server error) and performs no resolution
and no materialization work: cache, file system and call trace untouched. -/
theorem C8_lock_timeout (up : Upstream) (ttl now : Int) (basePath downloadDir : GoStr)
    (cache : RunCache) (fs : List GoStr) (runName artifactName filename : GoStr) :
    handleTargetRequest up ttl now basePath downloadDir false cache fs
        runName artifactName filename
      = ⟨.notFound, cache, fs, []⟩ ∧ HOut.notFound ≠ HOut.internalError := by
  exact ⟨rfl, by decide⟩

/-- C9: after a fresh successful resolution at `t0`, a second request with
the same run reference but any other artifact name, arriving at `t1` with
`t1 - t0 ≤ TTL`, is served from the first request's cached entry: same
descriptor, no upstream call, the second artifact name never inspected. -/
theorem C9_cache_key_ignores_artifact (up up2 : Upstream) (ttl t0 t1 : Int)
    (cache : RunCache) (runName a1 a2 : GoStr) (run1 : Run)
    (hmiss : cacheGet cache runName = none)
    (h1 : (resolveRun up ttl t0 cache runName a1).result = .ok run1)
    (ht : t1 - t0 ≤ ttl) :
    resolveRun up2 ttl t1 (resolveRun up ttl t0 cache runName a1).cache runName a2
      = ⟨.ok run1, (resolveRun up ttl t0 cache runName a1).cache, []⟩ := by
  rw [resolveRun_miss up ttl t0 cache runName a1 (Or.inl hmiss)] at h1 ⊢
  obtain ⟨hft, hc, -, -⟩ := resolveMiss_ok_inv up t0 cache runName a1 run1 h1
  refine resolveRun_hit up2 ttl t1 _ runName a2 run1 ?_ ?_
  · rw [hc]
    simp [cacheGet, cacheSet]
  · rw [hft]
    exact ht

theorem C9_cache_key_ignores_artifact_witness :
    cacheGet [] latestStr = none ∧
    (resolveRun upFix 5 0 [] latestStr (gs "coverage")).result = .ok ⟨42, 777, 0⟩ ∧
    (3 : Int) - 0 ≤ 5 ∧
    resolveRun upFix 5 3 (resolveRun upFix 5 0 [] latestStr (gs "coverage")).cache
        latestStr (gs "other-artifact")
      = ⟨.ok ⟨42, 777, 0⟩, (resolveRun upFix 5 0 [] latestStr (gs "coverage")).cache, []⟩ := by
  refine ⟨rfl, rfl, by decide, ?_⟩
  exact C9_cache_key_ignores_artifact upFix upFix 5 0 3 [] latestStr
    (gs "coverage") (gs "other-artifact") ⟨42, 777, 0⟩ rfl rfl (by decide)

/-- C10: every failing resolution attempt leaves the run cache unchanged;
when the cache does change, the resolution succeeded and the new entry was
built from an artifact found under the requested name with a non-nil ID,
written over the request's key. -/
theorem C10_cache_written_only_on_success (up : Upstream) (ttl now : Int)
    (cache : RunCache) (runName artifactName : GoStr) :
    (∀ f, (resolveRun up ttl now cache runName artifactName).result = .error f →
      (resolveRun up ttl now cache runName artifactName).cache = cache) ∧
    (∀ run, (resolveRun up ttl now cache runName artifactName).result = .ok run →
      (resolveRun up ttl now cache runName artifactName).cache = cache ∨
      ((resolveRun up ttl now cache runName artifactName).cache
          = cacheSet cache runName run ∧
        ∃ arts a, up.listArtifacts run.id = .ok arts ∧
          findArtifact arts artifactName = some a ∧ a.id = some run.artifactId)) := by
  rcases hget : cacheGet cache runName with _ | r
  · rw [resolveRun_miss up ttl now cache runName artifactName (Or.inl hget)]
    refine ⟨?_, ?_⟩
    · intro f herr
      exact resolveMiss_error_inv up now cache runName artifactName f herr
    · intro run hok
      obtain ⟨-, hc, hfound, -⟩ := resolveMiss_ok_inv up now cache runName artifactName run hok
      exact Or.inr ⟨hc, hfound⟩
  · by_cases hfresh : now - r.fetchTime ≤ ttl
    · rw [resolveRun_hit up ttl now cache runName artifactName r hget hfresh]
      exact ⟨fun f herr => by simp at herr, fun run hok => Or.inl rfl⟩
    · rw [resolveRun_miss up ttl now cache runName artifactName
        (Or.inr ⟨r, hget, not_le.mp hfresh⟩)]
      refine ⟨?_, ?_⟩
      · intro f herr
        exact resolveMiss_error_inv up now cache runName artifactName f herr
      · intro run hok
        obtain ⟨-, hc, hfound, -⟩ :=
          resolveMiss_ok_inv up now cache runName artifactName run hok
        exact Or.inr ⟨hc, hfound⟩

theorem C10_cache_written_only_on_success_witness :
    ((resolveRun ⟨.err none, upFix.getRun, upFix.listArtifacts, upFix.downloadArtifact⟩
        5 3 [] latestStr (gs "coverage")).result = .error .internalError ∧
      (resolveRun ⟨.err none, upFix.getRun, upFix.listArtifacts, upFix.downloadArtifact⟩
        5 3 [] latestStr (gs "coverage")).cache = []) ∧
    ((resolveRun upFix 5 3 [] latestStr (gs "coverage")).result = .ok ⟨42, 777, 3⟩ ∧
      ((resolveRun upFix 5 3 [] latestStr (gs "coverage")).cache = [] ∨
        ((resolveRun upFix 5 3 [] latestStr (gs "coverage")).cache
            = cacheSet [] latestStr ⟨42, 777, 3⟩ ∧
          ∃ arts a, upFix.listArtifacts 42 = .ok arts ∧
            findArtifact arts (gs "coverage") = some a ∧ a.id = some 777))) := by
  constructor
  · exact ⟨rfl,
      (C10_cache_written_only_on_success
        ⟨.err none, upFix.getRun, upFix.listArtifacts, upFix.downloadArtifact⟩
        5 3 [] latestStr (gs "coverage")).1 .internalError rfl⟩
  · exact ⟨rfl,
      (C10_cache_written_only_on_success upFix 5 3 [] latestStr (gs "coverage")).2
        ⟨42, 777, 3⟩ rfl⟩

/-! ## Lemmas about the materialization phase -/

theorem materialize_cached (up : Upstream) (basePath downloadDir : GoStr) (fs : List GoStr)
    (artifactId : Int) (filename : GoStr)
    (h : goClean (getArtifactCacheDir downloadDir artifactId) ∈ fs) :
    materialize up basePath downloadDir fs artifactId filename
      = ⟨.redirect (dlPathOf basePath artifactId filename), fs, []⟩ := by
  unfold materialize
  rw [if_pos h]

theorem unzipFS_ok_mem (destDir p : GoStr) :
    ∀ entries fs fs2, unzipFS destDir fs entries = .ok fs2 → p ∈ fs → p ∈ fs2 := by
  intro entries
  induction entries with
  | nil =>
    intro fs fs2 h hp
    unfold unzipFS at h
    injection h with h2
    rw [← h2]
    exact hp
  | cons e rest ih =>
    intro fs fs2 h hp
    unfold unzipFS at h
    by_cases hc : extractFileOk destDir e
    · rw [if_pos hc] at h
      exact ih _ fs2 h (List.mem_cons_of_mem _ hp)
    · rw [if_neg hc] at h
      exact absurd h (by simp)

theorem unzipFS_ok_writes (destDir : GoStr) :
    ∀ entries fs fs2, unzipFS destDir fs entries = .ok fs2 →
      ∀ e ∈ entries, goJoin destDir e ∈ fs2 := by
  intro entries
  induction entries with
  | nil =>
    intro fs fs2 _ e he
    exact absurd he (List.not_mem_nil e)
  | cons e rest ih =>
    intro fs fs2 h e2 he2
    unfold unzipFS at h
    by_cases hc : extractFileOk destDir e
    · rw [if_pos hc] at h
      rcases List.mem_cons.mp he2 with rfl | he2
      · exact unzipFS_ok_mem destDir _ rest _ fs2 h (List.mem_cons_self _ _)
      · exact ih _ fs2 h e2 he2
    · rw [if_neg hc] at h
      exact absurd h (by simp)

/-- A materialization that ends in a redirect leaves the artifact cache
directory node present on disk. -/
theorem materialize_redirect_mem (up : Upstream) (basePath downloadDir : GoStr)
    (fs : List GoStr) (artifactId : Int) (filename : GoStr) (q : GoStr)
    (hout : (materialize up basePath downloadDir fs artifactId filename).out = .redirect q) :
    goClean (getArtifactCacheDir downloadDir artifactId)
      ∈ (materialize up basePath downloadDir fs artifactId filename).fs := by
  by_cases hstat : goClean (getArtifactCacheDir downloadDir artifactId) ∈ fs
  · rw [materialize_cached up basePath downloadDir fs artifactId filename hstat]
    exact hstat
  · unfold materialize at hout ⊢
    rw [if_neg hstat] at hout ⊢
    rcases hdl : up.downloadArtifact artifactId with _ | entries
    · simp only [hdl] at hout
      simp at hout
    · simp only [hdl] at hout ⊢
      rcases hpre : (if filename = [] then none
          else match zipOpen entries filename with
            | .ok => none
            | .notExist => some HOut.notFound
            | .invalid => some HOut.internalError) with _ | o
      · simp only [hpre] at hout ⊢
        rcases hz : unzipFS (getArtifactCacheDir downloadDir artifactId)
            (mkdirAllFS fs (getArtifactCacheDir downloadDir artifactId)) entries with p2 | fs2
        · rcases p2 with ⟨bad, fsp⟩
          simp only [hz] at hout
          simp at hout
        · simp only [hz] at hout ⊢
          exact unzipFS_ok_mem _ _ entries _ fs2 hz (List.mem_cons_self _ _)
      · simp only [hpre] at hout
        have ho : o = HOut.redirect q := by simpa using hout
        subst ho
        split at hpre
        · simp at hpre
        · split at hpre <;> simp at hpre

/-- C3: when the deterministically named artifact cache directory exists,
the request is answered with a redirect, with no upstream download call
and no change to the file system; consequently a second materialization of
the same artifact ID after a successful one downloads and extracts
nothing. -/
theorem C3_artifact_dir_presence (up up2 : Upstream) (basePath downloadDir : GoStr)
    (fs : List GoStr) (artifactId : Int) (filename filename2 : GoStr) :
    (goClean (getArtifactCacheDir downloadDir artifactId) ∈ fs →
      materialize up basePath downloadDir fs artifactId filename
        = ⟨.redirect (dlPathOf basePath artifactId filename), fs, []⟩) ∧
    (∀ q, (materialize up basePath downloadDir fs artifactId filename).out = .redirect q →
      materialize up2 basePath downloadDir
          (materialize up basePath downloadDir fs artifactId filename).fs artifactId filename2
        = ⟨.redirect (dlPathOf basePath artifactId filename2),
           (materialize up basePath downloadDir fs artifactId filename).fs, []⟩) := by
  constructor
  · intro h
    exact materialize_cached up basePath downloadDir fs artifactId filename h
  · intro q hout
    exact materialize_cached up2 basePath downloadDir _ artifactId filename2
      (materialize_redirect_mem up basePath downloadDir fs artifactId filename q hout)

theorem C3_artifact_dir_presence_witness :
    (goClean (getArtifactCacheDir (gs "/data") 777) ∈ [goClean (gs "/data/artifacts/777")] ∧
      materialize upFix (gs "/") (gs "/data") [goClean (gs "/data/artifacts/777")] 777
          (gs "coverage.svg")
        = ⟨.redirect (dlPathOf (gs "/") 777 (gs "coverage.svg")),
           [goClean (gs "/data/artifacts/777")], []⟩) ∧
    ((materialize upFix (gs "/") (gs "/data") [] 777 (gs "coverage.svg")).out
        = .redirect (dlPathOf (gs "/") 777 (gs "coverage.svg")) ∧
      materialize upFix (gs "/") (gs "/data")
          (materialize upFix (gs "/") (gs "/data") [] 777 (gs "coverage.svg")).fs 777
          (gs "coverage.svg")
        = ⟨.redirect (dlPathOf (gs "/") 777 (gs "coverage.svg")),
           (materialize upFix (gs "/") (gs "/data") [] 777 (gs "coverage.svg")).fs, []⟩) := by
  constructor
  · exact ⟨by decide,
      (C3_artifact_dir_presence upFix upFix (gs "/") (gs "/data")
        [goClean (gs "/data/artifacts/777")] 777 (gs "coverage.svg") (gs "coverage.svg")).1
        (by decide)⟩
  · exact ⟨by decide,
      (C3_artifact_dir_presence upFix upFix (gs "/") (gs "/data") [] 777
        (gs "coverage.svg") (gs "coverage.svg")).2
        (dlPathOf (gs "/") 777 (gs "coverage.svg")) (by decide)⟩

/-- C4 (amended): when a specific file is requested whose name is a valid
slash-separated path and which is absent from the archive, the request is
answered not-found before the directory is created and before any file is
written; a syntactically invalid non-empty requested path is answered with
an internal error, likewise before any write; a request for the archive
root skips the pre-check entirely, can never be answered not-found, and on
successful extraction every archive entry is materialized. -/
theorem C4_file_precheck (up : Upstream) (basePath downloadDir : GoStr) (fs : List GoStr)
    (artifactId : Int) (filename : GoStr) (entries : List GoStr)
    (hstat : goClean (getArtifactCacheDir downloadDir artifactId) ∉ fs)
    (hdl : up.downloadArtifact artifactId = some entries) :
    (filename ≠ [] → fsValidPath filename = true → zipHas entries filename = false →
      materialize up basePath downloadDir fs artifactId filename
        = ⟨.notFound, fs, [.downloadArtifact artifactId]⟩) ∧
    (filename ≠ [] → fsValidPath filename = false →
      materialize up basePath downloadDir fs artifactId filename
        = ⟨.internalError, fs, [.downloadArtifact artifactId]⟩) ∧
    (filename = [] →
      (∀ fs2, unzipFS (getArtifactCacheDir downloadDir artifactId)
          (mkdirAllFS fs (getArtifactCacheDir downloadDir artifactId)) entries = .ok fs2 →
        materialize up basePath downloadDir fs artifactId filename
          = ⟨.redirect (dlPathOf basePath artifactId filename), fs2,
             [.downloadArtifact artifactId]⟩ ∧
        ∀ e ∈ entries, goJoin (getArtifactCacheDir downloadDir artifactId) e ∈ fs2) ∧
      (materialize up basePath downloadDir fs artifactId filename).out ≠ .notFound) := by
  refine ⟨?_, ?_, ?_⟩
  · intro hfn hval hhas
    have hz : zipOpen entries filename = .notExist := by
      unfold zipOpen
      rw [hval]
      simp [hhas]
    unfold materialize
    rw [if_neg hstat]
    simp only [hdl]
    simp [hfn, hz]
  · intro hfn hinval
    have hz : zipOpen entries filename = .invalid := by
      unfold zipOpen
      rw [if_pos hinval]
    unfold materialize
    rw [if_neg hstat]
    simp only [hdl]
    simp [hfn, hz]
  · intro hfn
    subst hfn
    constructor
    · intro fs2 hz2
      unfold materialize
      rw [if_neg hstat]
      simp only [hdl, hz2]
      exact ⟨rfl, fun e he => unzipFS_ok_writes _ entries _ fs2 hz2 e he⟩
    · unfold materialize
      rw [if_neg hstat]
      rcases hz : unzipFS (getArtifactCacheDir downloadDir artifactId)
          (mkdirAllFS fs (getArtifactCacheDir downloadDir artifactId)) entries with p2 | fs2
      · rcases p2 with ⟨bad, fsp⟩
        simp [hdl, hz]
      · simp [hdl, hz]

theorem C4_file_precheck_witness :
    (goClean (getArtifactCacheDir (gs "/data") 777) ∉ ([] : List GoStr) ∧
      upFix.downloadArtifact 777 = some [gs "coverage.svg"] ∧
      gs "nope.txt" ≠ [] ∧ fsValidPath (gs "nope.txt") = true ∧
      zipHas [gs "coverage.svg"] (gs "nope.txt") = false ∧
      materialize upFix (gs "/") (gs "/data") [] 777 (gs "nope.txt")
        = ⟨.notFound, [], [.downloadArtifact 777]⟩) ∧
    (gs "a//b" ≠ [] ∧ fsValidPath (gs "a//b") = false ∧
      materialize upFix (gs "/") (gs "/data") [] 777 (gs "a//b")
        = ⟨.internalError, [], [.downloadArtifact 777]⟩) ∧
    (materialize upFix (gs "/") (gs "/data") [] 777 []).out ≠ .notFound := by
  refine ⟨?_, ?_, ?_⟩
  · exact ⟨by decide, rfl, by decide, by decide, by decide,
      (C4_file_precheck upFix (gs "/") (gs "/data") [] 777 (gs "nope.txt")
        [gs "coverage.svg"] (by decide) rfl).1 (by decide) (by decide) (by decide)⟩
  · exact ⟨by decide, by decide,
      (C4_file_precheck upFix (gs "/") (gs "/data") [] 777 (gs "a//b")
        [gs "coverage.svg"] (by decide) rfl).2.1 (by decide) (by decide)⟩
  · exact ((C4_file_precheck upFix (gs "/") (gs "/data") [] 777 []
      [gs "coverage.svg"] (by decide) rfl).2.2 rfl).2

/-- C4, as stated, is false: the requested path `..` is a nonempty
relative path that is absent from an archive containing only `x`, yet the
pre-flight check answers it with an internal error (HTTP 500, since
`fs.ErrInvalid` is not `fs.ErrNotExist`), not with not-found (HTTP 404) as
the claim requires.  No file is written, as in the claim. -/
theorem C4_counterexample :
    gs ".." ≠ [] ∧
    zipHas [gs "coverage.svg"] (gs "..") = false ∧
    (materialize upFix (gs "/") (gs "/data") [] 777 (gs "..")).out = .internalError ∧
    (materialize upFix (gs "/") (gs "/data") [] 777 (gs "..")).out ≠ .notFound ∧
    (materialize upFix (gs "/") (gs "/data") [] 777 (gs "..")).fs = [] := by
  exact ⟨by decide, by decide, by decide, by decide, by decide⟩

/-! ## The containment check of `extractFile` is exactly strict
containment of the resolved entry path in the extraction root

The chain below relates the string-level check
`strings.HasPrefix(filepath.Join(destDir, name), filepath.Clean(destDir)+"/")`
to the component-level statement that the `..`-resolved destination of the
entry lies strictly below the root directory. -/

theorem compsAux_append (a : GoStr) :
    ∀ cur b, compsAux cur (a ++ '/' :: b) = compsAux cur a ++ comps b := by
  induction a with
  | nil =>
    intro cur b
    by_cases hcur : cur = [] <;> simp [compsAux, hcur, comps]
  | cons c a' ih =>
    intro cur b
    by_cases hc : c = '/'
    · subst hc
      by_cases hcur : cur = [] <;> simp [compsAux, hcur, ih]
    · simp [compsAux, hc, ih]

theorem comps_append (a b : GoStr) : comps (a ++ '/' :: b) = comps a ++ comps b :=
  compsAux_append a [] b

theorem compsAux_seg (s : GoStr) :
    ∀ cur, '/' ∉ cur → ∀ c ∈ compsAux cur s, isSeg c := by
  induction s with
  | nil =>
    intro cur hcur c hc
    unfold compsAux at hc
    by_cases h : cur = []
    · simp [h] at hc
    · rw [if_neg h] at hc
      rcases List.mem_singleton.mp hc with rfl
      exact ⟨by simpa using h, by simpa using hcur⟩
  | cons ch rest ih =>
    intro cur hcur c hc
    unfold compsAux at hc
    by_cases hch : ch = '/'
    · rw [if_pos hch] at hc
      by_cases h : cur = []
      · rw [if_pos h] at hc
        exact ih [] (by simp) c hc
      · rw [if_neg h] at hc
        rcases List.mem_cons.mp hc with rfl | hc
        · exact ⟨by simpa using h, by simpa using hcur⟩
        · exact ih [] (by simp) c hc
    · rw [if_neg hch] at hc
      refine ih (ch :: cur) ?_ c hc
      intro hmem
      rcases List.mem_cons.mp hmem with h1 | h1
      · exact hch h1.symm
      · exact hcur h1

theorem comps_seg (s : GoStr) : ∀ c ∈ comps s, isSeg c :=
  compsAux_seg s [] (by simp)

theorem cleanCompsAux_mem (r : Bool) :
    ∀ cs stack c, c ∈ cleanCompsAux r stack cs →
      c ∈ stack ∨ c ∈ cs ∨ c = ['.', '.'] := by
  intro cs
  induction cs with
  | nil =>
    intro stack c hc
    rw [cleanCompsAux] at hc
    exact Or.inl (List.mem_reverse.mp hc)
  | cons x rest ih =>
    intro stack c hc
    rcases stack with _ | ⟨t, st⟩
    · rw [cleanCompsAux] at hc
      by_cases hdot : x = ['.']
      · rw [if_pos hdot] at hc
        rcases ih [] c hc with h | h | h
        · exact absurd h (List.not_mem_nil c)
        · exact Or.inr (Or.inl (List.mem_cons_of_mem _ h))
        · exact Or.inr (Or.inr h)
      · rw [if_neg hdot] at hc
        by_cases hdd : x = ['.', '.']
        · rw [if_pos hdd] at hc
          by_cases hr : r = true
          · rw [if_pos hr] at hc
            rcases ih [] c hc with h | h | h
            · exact absurd h (List.not_mem_nil c)
            · exact Or.inr (Or.inl (List.mem_cons_of_mem _ h))
            · exact Or.inr (Or.inr h)
          · rw [if_neg hr] at hc
            rcases ih [x] c hc with h | h | h
            · rcases List.mem_singleton.mp h with rfl
              exact Or.inr (Or.inl (List.mem_cons_self _ _))
            · exact Or.inr (Or.inl (List.mem_cons_of_mem _ h))
            · exact Or.inr (Or.inr h)
        · rw [if_neg hdd] at hc
          rcases ih [x] c hc with h | h | h
          · rcases List.mem_singleton.mp h with rfl
            exact Or.inr (Or.inl (List.mem_cons_self _ _))
          · exact Or.inr (Or.inl (List.mem_cons_of_mem _ h))
          · exact Or.inr (Or.inr h)
    · rw [cleanCompsAux] at hc
      by_cases hdot : x = ['.']
      · rw [if_pos hdot] at hc
        rcases ih (t :: st) c hc with h | h | h
        · exact Or.inl h
        · exact Or.inr (Or.inl (List.mem_cons_of_mem _ h))
        · exact Or.inr (Or.inr h)
      · rw [if_neg hdot] at hc
        by_cases hdd : x = ['.', '.']
        · rw [if_pos hdd] at hc
          by_cases ht : t = ['.', '.']
          · rw [if_pos ht] at hc
            rcases ih (x :: t :: st) c hc with h | h | h
            · rcases List.mem_cons.mp h with rfl | h
              · exact Or.inr (Or.inl (List.mem_cons_self _ _))
              · exact Or.inl h
            · exact Or.inr (Or.inl (List.mem_cons_of_mem _ h))
            · exact Or.inr (Or.inr h)
          · rw [if_neg ht] at hc
            rcases ih st c hc with h | h | h
            · exact Or.inl (List.mem_cons_of_mem _ h)
            · exact Or.inr (Or.inl (List.mem_cons_of_mem _ h))
            · exact Or.inr (Or.inr h)
        · rw [if_neg hdd] at hc
          rcases ih (x :: t :: st) c hc with h | h | h
          · rcases List.mem_cons.mp h with rfl | h
            · exact Or.inr (Or.inl (List.mem_cons_self _ _))
            · exact Or.inl h
          · exact Or.inr (Or.inl (List.mem_cons_of_mem _ h))
          · exact Or.inr (Or.inr h)

theorem dotdot_seg : isSeg ['.', '.'] := ⟨by simp, by simp⟩

theorem cleanComps_seg (r : Bool) (cs : List GoStr) (hcs : ∀ c ∈ cs, isSeg c) :
    ∀ c ∈ cleanComps r cs, isSeg c := by
  intro c hc
  rcases cleanCompsAux_mem r cs [] c hc with h | h | h
  · exact absurd h (List.not_mem_nil c)
  · exact hcs c h
  · rw [h]
    exact dotdot_seg

theorem pathComps_seg (s : GoStr) : ∀ c ∈ pathComps s, isSeg c :=
  cleanComps_seg (rootedOf s) (comps s) (comps_seg s)

theorem joinedComps_seg (d n : GoStr) : ∀ c ∈ joinedComps d n, isSeg c := by
  refine cleanComps_seg (rootedOf d) (comps d ++ comps n) ?_
  intro c hc
  rcases List.mem_append.mp hc with h | h
  · exact comps_seg d c h
  · exact comps_seg n c h

/-- Matching two segment-slash-tail strings: the segments before the first
separator must agree. -/
theorem seg_slash_tail_iff (a : GoStr) :
    ∀ b t u, '/' ∉ a → '/' ∉ b →
      ((a ++ '/' :: t) <+: (b ++ '/' :: u) ↔ a = b ∧ t <+: u) := by
  induction a with
  | nil =>
    intro b t u _ hb
    rcases b with _ | ⟨c, b'⟩
    · simp [List.cons_prefix_cons]
    · have hc : ('/' : Char) ≠ c := fun h => hb (h ▸ List.mem_cons_self _ _)
      simp [List.cons_prefix_cons, hc]
  | cons c a' ih =>
    intro b t u ha hb
    have hc : c ≠ '/' := fun h => ha (h ▸ List.mem_cons_self _ _)
    rcases b with _ | ⟨c', b'⟩
    · simp [List.cons_prefix_cons, hc]
    · have ha' : '/' ∉ a' := fun h => ha (List.mem_cons_of_mem _ h)
      have hb' : '/' ∉ b' := fun h => hb (List.mem_cons_of_mem _ h)
      simp only [List.cons_append, List.cons_prefix_cons, ih b' t u ha' hb', List.cons.injEq]
      tauto

/-- A string containing a separator cannot begin a separator-free string. -/
theorem seg_slash_not_isPre (a t b : GoStr) (hb : '/' ∉ b) :
    ¬((a ++ '/' :: t) <+: b) := by
  intro hp
  exact hb (hp.subset (List.mem_append.mpr (Or.inr (List.mem_cons_self _ _))))

theorem joinSlash_ne_nil (L : List GoStr) (hL : ∀ s ∈ L, isSeg s) (h0 : L ≠ []) :
    joinSlash L ≠ [] := by
  rcases L with _ | ⟨a, rest⟩
  · exact absurd rfl h0
  · have ha : a ≠ [] := (hL a (List.mem_cons_self _ _)).1
    rcases rest with _ | ⟨b, rest'⟩
    · simpa [joinSlash] using ha
    · simp [joinSlash]

/-- The heart of the containment characterization: for lists of segments,
the rendered string of `A` followed by a separator begins the rendered
string of `B` exactly when `A` is a strict prefix of `B` as a component
list. -/
theorem joinSlash_strict (A : List GoStr) :
    ∀ B, (∀ s ∈ A, isSeg s) → (∀ s ∈ B, isSeg s) → A ≠ [] →
      ((joinSlash A ++ ['/']) <+: joinSlash B ↔ A <+: B ∧ A ≠ B) := by
  induction A with
  | nil =>
    intro B _ _ h0
    exact absurd rfl h0
  | cons a A' ih =>
    intro B hA hB _
    have hsa : isSeg a := hA a (List.mem_cons_self _ _)
    rcases A' with _ | ⟨a2, A''⟩
    · -- A = [a]
      rcases B with _ | ⟨b, B'⟩
      · constructor
        · intro h
          have h' : a ++ ['/'] <+: ([] : GoStr) := by simpa [joinSlash] using h
          have h2 := List.prefix_nil.mp h'
          exact absurd (List.append_eq_nil.mp h2).1 hsa.1
        · rintro ⟨h, -⟩
          have h2 := List.prefix_nil.mp h
          simp at h2
      · have hsb : isSeg b := hB b (List.mem_cons_self _ _)
        rcases B' with _ | ⟨b', B''⟩
        · -- B = [b]
          constructor
          · intro h
            have h' : a ++ '/' :: ([] : GoStr) <+: b := by simpa [joinSlash] using h
            exact absurd h' (seg_slash_not_isPre a [] b hsb.2)
          · rintro ⟨h, hne⟩
            obtain ⟨rfl, -⟩ := List.cons_prefix_cons.mp h
            exact absurd rfl hne
        · -- B = b :: b' :: B''
          have hmain := seg_slash_tail_iff a b [] (joinSlash (b' :: B'')) hsa.2 hsb.2
          constructor
          · intro h
            have h' : a ++ '/' :: ([] : GoStr) <+: b ++ '/' :: joinSlash (b' :: B'') := by
              simpa [joinSlash] using h
            obtain ⟨rfl, -⟩ := hmain.mp h'
            exact ⟨List.cons_prefix_cons.mpr ⟨rfl, List.nil_prefix⟩, by simp⟩
          · rintro ⟨h, -⟩
            obtain ⟨rfl, -⟩ := List.cons_prefix_cons.mp h
            have h' := hmain.mpr ⟨rfl, List.nil_prefix⟩
            simpa [joinSlash] using h'
    · -- A = a :: a2 :: A''
      have hA' : ∀ s ∈ a2 :: A'', isSeg s := fun s hs => hA s (List.mem_cons_of_mem _ hs)
      rcases B with _ | ⟨b, B'⟩
      · constructor
        · intro h
          have h' : a ++ '/' :: (joinSlash (a2 :: A'') ++ ['/']) <+: ([] : GoStr) := by
            simpa [joinSlash] using h
          have h2 := List.prefix_nil.mp h'
          simp at h2
        · rintro ⟨h, -⟩
          have h2 := List.prefix_nil.mp h
          simp at h2
      · have hsb : isSeg b := hB b (List.mem_cons_self _ _)
        rcases B' with _ | ⟨b', B''⟩
        · -- B = [b]
          constructor
          · intro h
            have h' : a ++ '/' :: (joinSlash (a2 :: A'') ++ ['/']) <+: b := by
              simpa [joinSlash] using h
            exact absurd h' (seg_slash_not_isPre a _ b hsb.2)
          · rintro ⟨h, -⟩
            obtain ⟨-, h2⟩ := List.cons_prefix_cons.mp h
            have h3 := List.prefix_nil.mp h2
            simp at h3
        · -- B = b :: b' :: B''
          have hB' : ∀ s ∈ b' :: B'', isSeg s := fun s hs => hB s (List.mem_cons_of_mem _ hs)
          have hmain := seg_slash_tail_iff a b (joinSlash (a2 :: A'') ++ ['/'])
            (joinSlash (b' :: B'')) hsa.2 hsb.2
          have hrec := ih (b' :: B'') hA' hB' (by simp)
          constructor
          · intro h
            have h' : a ++ '/' :: (joinSlash (a2 :: A'') ++ ['/'])
                <+: b ++ '/' :: joinSlash (b' :: B'') := by
              simpa [joinSlash] using h
            obtain ⟨rfl, h2⟩ := hmain.mp h'
            obtain ⟨h3, h4⟩ := hrec.mp h2
            refine ⟨List.cons_prefix_cons.mpr ⟨rfl, h3⟩, ?_⟩
            intro hcontra
            injection hcontra with h5a h5
            exact h4 h5
          · rintro ⟨h, hne⟩
            obtain ⟨rfl, h2⟩ := List.cons_prefix_cons.mp h
            have hne2 : (a2 :: A'') ≠ (b' :: B'') := by
              intro hcontra
              exact hne (by rw [hcontra])
            have h' := hmain.mpr ⟨rfl, hrec.mpr ⟨h2, hne2⟩⟩
            simpa [joinSlash] using h'

/-- Lifting `joinSlash_strict` through `renderPath`: the rendered root
followed by a separator begins the rendered path exactly when the root's
components are a strict prefix of the path's components. -/
theorem renderPath_contain (R : Bool) (A B : List GoStr)
    (hA : ∀ s ∈ A, isSeg s) (hB : ∀ s ∈ B, isSeg s) (hA0 : A ≠ []) :
    ((renderPath R A ++ ['/']) <+: renderPath R B ↔ A <+: B ∧ A ≠ B) := by
  have hjA : joinSlash A ≠ [] := joinSlash_ne_nil A hA hA0
  have houtA : ((if R then ['/'] else []) ++ joinSlash A) ≠ [] := by
    cases R <;> simp [hjA]
  have hrA : renderPath R A = (if R then ['/'] else []) ++ joinSlash A := by
    unfold renderPath
    rw [if_neg houtA]
  rcases B with _ | ⟨b, B'⟩
  · have hrB : renderPath R [] = if R then ['/'] else ['.'] := by
      unfold renderPath
      cases R <;> simp [joinSlash]
    rw [hrA, hrB]
    constructor
    · intro h
      have hlen := h.length_le
      cases R
      · simp at hlen
        exact absurd hlen hjA
      · simp at hlen
    · rintro ⟨h, -⟩
      exact absurd (List.prefix_nil.mp h) hA0
  · have hjB : joinSlash (b :: B') ≠ [] := joinSlash_ne_nil (b :: B') hB (by simp)
    have houtB : ((if R then ['/'] else []) ++ joinSlash (b :: B')) ≠ [] := by
      cases R <;> simp [hjB]
    have hrB : renderPath R (b :: B') = (if R then ['/'] else []) ++ joinSlash (b :: B') := by
      unfold renderPath
      rw [if_neg houtB]
    rw [hrA, hrB]
    have hmain := joinSlash_strict A (b :: B') hA hB hA0
    cases R
    · simpa using hmain
    · constructor
      · intro h
        have h2 : '/' :: (joinSlash A ++ ['/']) <+: '/' :: joinSlash (b :: B') := by
          simpa using h
        exact hmain.mp (List.cons_prefix_cons.mp h2).2
      · intro hr
        have h2 : '/' :: (joinSlash A ++ ['/']) <+: '/' :: joinSlash (b :: B') :=
          List.cons_prefix_cons.mpr ⟨rfl, hmain.mpr hr⟩
        simpa using h2

theorem rootedOf_append (d x : GoStr) (hd : d ≠ []) : rootedOf (d ++ x) = rootedOf d := by
  rcases d with _ | ⟨c, d'⟩
  · exact absurd rfl hd
  · rfl

/-- For a nonempty root, `filepath.Join(destDir, name)` renders the
`..`-resolved components of the concatenated path. -/
theorem goJoin_eq (d n : GoStr) (hd : d ≠ []) :
    goJoin d n = renderPath (rootedOf d) (joinedComps d n) := by
  unfold goJoin goJoinList
  rw [if_neg hd]
  have h1 : joinSlash [d, n] = d ++ '/' :: n := rfl
  rw [h1]
  unfold goClean
  rw [rootedOf_append d ('/' :: n) hd, comps_append d n]
  rfl

/-- The containment check of `extractFile` holds exactly when the
`..`-resolved destination of the archive entry lies strictly inside the
canonical extraction root (for a root that is neither empty, `/`, `"."`
nor a pure `..`-chain, which is the shape of every artifact cache
directory). -/
theorem extractFileOk_iff (d n : GoStr) (hd : d ≠ []) (hc : pathComps d ≠ []) :
    (extractFileOk d n = true ↔
      (pathComps d <+: joinedComps d n ∧ pathComps d ≠ joinedComps d n)) := by
  unfold extractFileOk
  rw [ List.isPrefixOf_iff_prefix]
  rw [goJoin_eq d n hd]
  have hgc : goClean d = renderPath (rootedOf d) (pathComps d) := rfl
  rw [hgc]
  exact renderPath_contain (rootedOf d) (pathComps d) (joinedComps d n)
    (pathComps_seg d) (joinedComps_seg d n) hc

theorem unzipFS_error_of_bad (destDir : GoStr) :
    ∀ entries fs, (∃ e ∈ entries, extractFileOk destDir e = false) →
      ∃ bad fsp, unzipFS destDir fs entries = .error (bad, fsp) := by
  intro entries
  induction entries with
  | nil =>
    intro fs h
    rcases h with ⟨e, he, -⟩
    exact absurd he (List.not_mem_nil e)
  | cons e rest ih =>
    intro fs h
    by_cases hc : extractFileOk destDir e = true
    · rcases h with ⟨e2, he2, hbad⟩
      rcases List.mem_cons.mp he2 with rfl | he2
      · rw [hc] at hbad
        exact absurd hbad (by simp)
      · obtain ⟨bad, fsp, hz⟩ := ih (goJoin destDir e :: fs) ⟨e2, he2, hbad⟩
        refine ⟨bad, fsp, ?_⟩
        unfold unzipFS
        rw [if_pos hc]
        exact hz
    · refine ⟨goJoin destDir e, fs, ?_⟩
      unfold unzipFS
      rw [if_neg hc]

theorem unzipFS_ok_of_all (destDir : GoStr) :
    ∀ entries fs, (∀ e ∈ entries, extractFileOk destDir e = true) →
      ∃ fs2, unzipFS destDir fs entries = .ok fs2 := by
  intro entries
  induction entries with
  | nil =>
    intro fs _
    exact ⟨fs, rfl⟩
  | cons e rest ih =>
    intro fs hall
    have hc := hall e (List.mem_cons_self _ _)
    obtain ⟨fs2, hz⟩ :=
      ih (goJoin destDir e :: fs) (fun e2 he2 => hall e2 (List.mem_cons_of_mem _ he2))
    refine ⟨fs2, ?_⟩
    unfold unzipFS
    rw [if_pos hc]
    exact hz

/-- C1: during materialization, an archive entry whose joined path
resolves outside the canonical extraction root makes the whole extraction
fail with the security violation of `extractFile` (surfaced as an internal
error) and the destination directory is removed, leaving no node at or
below it; conversely an archive all of whose entries resolve strictly
inside the root is never rejected by the containment check. -/
theorem C1_zip_containment (up : Upstream) (basePath downloadDir : GoStr) (fs : List GoStr)
    (artifactId : Int) (filename : GoStr) (entries : List GoStr)
    (hstat : goClean (getArtifactCacheDir downloadDir artifactId) ∉ fs)
    (hdl : up.downloadArtifact artifactId = some entries)
    (hpre : filename = [] ∨ zipOpen entries filename = .ok)
    (hne : getArtifactCacheDir downloadDir artifactId ≠ [])
    (hcomps : pathComps (getArtifactCacheDir downloadDir artifactId) ≠ []) :
    ((∃ e ∈ entries,
        ¬(pathComps (getArtifactCacheDir downloadDir artifactId)
            <+: joinedComps (getArtifactCacheDir downloadDir artifactId) e)) →
      (materialize up basePath downloadDir fs artifactId filename).out = .internalError ∧
      (∃ bad fsp, unzipFS (getArtifactCacheDir downloadDir artifactId)
          (mkdirAllFS fs (getArtifactCacheDir downloadDir artifactId)) entries
            = .error (bad, fsp)) ∧
      (∀ p ∈ (materialize up basePath downloadDir fs artifactId filename).fs,
        underDirB (getArtifactCacheDir downloadDir artifactId) p = false)) ∧
    ((∀ e ∈ entries,
        pathComps (getArtifactCacheDir downloadDir artifactId)
            <+: joinedComps (getArtifactCacheDir downloadDir artifactId) e ∧
        pathComps (getArtifactCacheDir downloadDir artifactId)
            ≠ joinedComps (getArtifactCacheDir downloadDir artifactId) e) →
      (materialize up basePath downloadDir fs artifactId filename).out
        = .redirect (dlPathOf basePath artifactId filename)) := by
  have hpnone : (if filename = [] then none
      else match zipOpen entries filename with
        | ZOpen.ok => none
        | ZOpen.notExist => some HOut.notFound
        | ZOpen.invalid => some HOut.internalError) = (none : Option HOut) := by
    rcases hpre with h | h
    · rw [if_pos h]
    · by_cases hf : filename = []
      · rw [if_pos hf]
      · rw [if_neg hf, h]
  constructor
  · rintro ⟨e, he, hout⟩
    have hbad : extractFileOk (getArtifactCacheDir downloadDir artifactId) e = false := by
      rcases hb : extractFileOk (getArtifactCacheDir downloadDir artifactId) e
      · rfl
      · exact absurd ((extractFileOk_iff _ e hne hcomps).mp hb).1 hout
    obtain ⟨bad, fsp, hz⟩ := unzipFS_error_of_bad (getArtifactCacheDir downloadDir artifactId)
      entries (mkdirAllFS fs (getArtifactCacheDir downloadDir artifactId)) ⟨e, he, hbad⟩
    refine ⟨?_, ⟨bad, fsp, hz⟩, ?_⟩
    · unfold materialize
      rw [if_neg hstat]
      simp [hdl, hpnone, hz]
    · intro p hp
      unfold materialize at hp
      rw [if_neg hstat] at hp
      simp only [hdl, hpnone, hz] at hp
      have h2 := (List.mem_filter.mp hp).2
      simpa using h2
  · intro hins
    have hall : ∀ e ∈ entries,
        extractFileOk (getArtifactCacheDir downloadDir artifactId) e = true := fun e he =>
      (extractFileOk_iff _ e hne hcomps).mpr (hins e he)
    obtain ⟨fs2, hz⟩ := unzipFS_ok_of_all (getArtifactCacheDir downloadDir artifactId)
      entries (mkdirAllFS fs (getArtifactCacheDir downloadDir artifactId)) hall
    unfold materialize
    rw [if_neg hstat]
    simp [hdl, hpnone, hz]

theorem C1_zip_containment_witness :
    (goClean (getArtifactCacheDir (gs "/data") 7) ∉ ([] : List GoStr) ∧
      getArtifactCacheDir (gs "/data") 7 ≠ [] ∧
      pathComps (getArtifactCacheDir (gs "/data") 7) ≠ [] ∧
      (∃ e ∈ [gs "../../etc/passwd"],
        ¬(pathComps (getArtifactCacheDir (gs "/data") 7)
            <+: joinedComps (getArtifactCacheDir (gs "/data") 7) e)) ∧
      (materialize upEvil (gs "/") (gs "/data") [] 7 []).out = .internalError ∧
      (∀ p ∈ (materialize upEvil (gs "/") (gs "/data") [] 7 []).fs,
        underDirB (getArtifactCacheDir (gs "/data") 7) p = false)) ∧
    ((∀ e ∈ [gs "coverage.svg"],
        pathComps (getArtifactCacheDir (gs "/data") 7)
            <+: joinedComps (getArtifactCacheDir (gs "/data") 7) e ∧
        pathComps (getArtifactCacheDir (gs "/data") 7)
            ≠ joinedComps (getArtifactCacheDir (gs "/data") 7) e) ∧
      (materialize upFix (gs "/") (gs "/data") [] 7 []).out
        = .redirect (dlPathOf (gs "/") 7 [])) := by
  constructor
  · have h := (C1_zip_containment upEvil (gs "/") (gs "/data") [] 7 []
      [gs "../../etc/passwd"] (by decide) rfl (Or.inl rfl) (by decide) (by decide)).1
      (by decide)
    exact ⟨by decide, by decide, by decide, by decide, h.1, h.2.2⟩
  · have h := (C1_zip_containment upFix (gs "/") (gs "/data") [] 7 []
      [gs "coverage.svg"] (by decide) rfl (Or.inl rfl) (by decide) (by decide)).2
      (by decide)
    exact ⟨by decide, h⟩

end GAP
